import Mathlib

/-!
# drone-env-inspector: the `plugin` package

A shallow embedding of `plugin/plugin.go` (`Exec`, `validateArgs`,
`writeOutputToFile`, `writeSecretOutputToFile`) together with the small part of
the Go runtime these functions call, followed by the properties proved about it.

Modelling conventions
* A Go `string` is a `List Char` (`Str`): the sequence of code points of a valid
  UTF-8 string.  The separator `,` and all white space handled by
  `strings.TrimSpace` are single code points, so splitting and trimming on code
  points agrees with Go's byte-level implementation on valid UTF-8.
* The process environment, the file system, the outcome of the fallible system
  calls and the sequence of observable actions are gathered in one explicit
  state `OS` that every effectful function takes and returns.
* A file is not its path: the system resolves a path to the file it names
  (`OS.resolve`), so that two spellings of a path, a symbolic link and its target,
  or two hard links are one file.
* A Go `error` is `Option GoError` (`none` is `nil`).
-/

namespace EnvInspector

/-- A Go string, as the list of its code points. -/
abbrev Str := List Char

/-- The identity of a file, as the system knows it once a path is resolved. -/
abbrev FileId := Nat

/-! ## The Go runtime used by the package -/

/-- Go `unicode.IsSpace`: in Latin-1 the characters `\t \n \v \f \r`, space,
U+0085 and U+00A0; above Latin-1 the `White_Space` table. -/
def IsSpace (r : Char) : Bool :=
  let n := r.toNat
  if n ≤ 0xFF then
    n == 0x09 || n == 0x0A || n == 0x0B || n == 0x0C || n == 0x0D || n == 0x20
      || n == 0x85 || n == 0xA0
  else
    n == 0x1680 || (0x2000 ≤ n && n ≤ 0x200A) || n == 0x2028 || n == 0x2029
      || n == 0x202F || n == 0x205F || n == 0x3000

/-- Go `strings.TrimSpace`: the string without its leading and trailing white
space. -/
def TrimSpace (s : Str) : Str :=
  ((s.dropWhile IsSpace).reverse.dropWhile IsSpace).reverse

/-- Go `strings.Split(s, sep)` for a one-character separator: the pieces of `s`
between consecutive occurrences of `sep`; `n` separators give `n + 1` pieces and
the empty string gives the single piece `""`. -/
def Split : Str → Char → List Str
  | [], _ => [[]]
  | c :: cs, sep =>
    if c = sep then [] :: Split cs sep
    else (c :: (Split cs sep).headD []) :: (Split cs sep).tail

/-- The outcome the operating system has in store for one open-then-write of an
output file. -/
inductive Fault where
  /-- Both calls succeed. -/
  | none
  /-- The call `os.OpenFile` fails with the given cause. -/
  | openErr (cause : Str)
  /-- The file opens; the write fails with the given cause after `written`
  characters reached the file. -/
  | writeErr (cause : Str) (written : Nat)
  deriving DecidableEq

/-- An observable action of the program. -/
inductive Event where
  /-- The call `os.LookupEnv(key)`. -/
  | lookupEnv (key : Str)
  /-- The call `os.Getenv(key)`. -/
  | getenv (key : Str)
  /-- The call `logrus.Warnf` with the formatted message. -/
  | warn (msg : Str)
  /-- The call `logrus.Infof` with the formatted message. -/
  | info (msg : Str)
  /-- The call `os.OpenFile(path, O_APPEND|O_CREATE|O_WRONLY, 0644)`. -/
  | openFile (path : Str)
  /-- The characters that a write put at the end of the file at `path`. -/
  | write (path : Str) (data : Str)
  /-- The deferred `Close` of the file at `path`. -/
  | close (path : Str)
  deriving DecidableEq

/-- The world the plugin runs in.
* `env`: the process environment (`none`: the variable is not set);
* `resolve`: the file each path names; different paths may name one file;
* `files`: the content of the files, by identity (`none`: no such file);
* `denied`: the paths that can not be opened for appending, with the cause;
* `faults`: what happens at the coming open-then-write attempts, one entry per
  attempt, in order (no entry left: the attempt succeeds);
* `trace`: the actions performed so far, oldest first. -/
structure OS where
  env : Str → Option Str
  resolve : Str → FileId
  files : FileId → Option Str
  denied : Str → Option Str
  faults : List Fault
  trace : List Event

/-- An open file (`*os.File`): the path it was opened with, the file that path
names, and the failure, if any, awaiting the write. -/
structure File where
  path : Str
  fid : FileId
  wfault : Option (Str × Nat)

/-- A Go `error` built by `fmt.Errorf`: its message and, for a `%w` verb, the
error it wraps. -/
structure GoError where
  msg : Str
  wrapped : Option Str
  deriving DecidableEq

/-- Records an action at the end of the trace. -/
def OS.emit (w : OS) (e : Event) : OS :=
  { w with trace := w.trace ++ [e] }

/-- Go `os.Getenv`: the value of the variable, `""` when it is not set. -/
def Getenv (w : OS) (key : Str) : Str × OS :=
  ((w.env key).getD [], w.emit (.getenv key))

/-- Go `os.LookupEnv`: the value of the variable and whether it is set. -/
def LookupEnv (w : OS) (key : Str) : (Str × Bool) × OS :=
  (((w.env key).getD [], (w.env key).isSome), w.emit (.lookupEnv key))

/-- Go `logrus.Warnf`, the message already formatted. -/
def Warnf (w : OS) (msg : Str) : OS :=
  w.emit (.warn msg)

/-- Go `logrus.Infof`, the message already formatted. -/
def Infof (w : OS) (msg : Str) : OS :=
  w.emit (.info msg)

/-- The cause reported by the operating system for the empty path. -/
def enoent : Str := "open : no such file or directory".toList

/-- Go `os.OpenFile(path, O_APPEND|O_CREATE|O_WRONLY, 0644)`.  The empty path and
the denied paths fail; otherwise the next entry of `faults` decides, and on
success the path is resolved to the file it names, a missing file is created
empty (`O_CREATE`) while an existing one is left as it is (no `O_TRUNC`). -/
def OpenFile (w : OS) (path : Str) : Except Str File × OS :=
  let w1 : OS := { w.emit (.openFile path) with faults := w.faults.tail }
  if path = [] then (.error enoent, w1)
  else
    match w.denied path with
    | some cause => (.error cause, w1)
    | none =>
      let created : OS :=
        { w1 with
          files := Function.update w1.files (w.resolve path)
            (some ((w.files (w.resolve path)).getD [])) }
      match w.faults.headD Fault.none with
      | .openErr cause => (.error cause, w1)
      | .writeErr cause n => (.ok ⟨path, w.resolve path, some (cause, n)⟩, created)
      | .none => (.ok ⟨path, w.resolve path, Option.none⟩, created)

/-- The write of `data` to a file opened with `O_APPEND`: the characters go
after the current content; a failing write leaves the characters it had already
written. -/
def Fprintf (w : OS) (f : File) (data : Str) : Option Str × OS :=
  let put (d : Str) : OS :=
    { w.emit (.write f.path d) with
      files := Function.update w.files f.fid (some ((w.files f.fid).getD [] ++ d)) }
  match f.wfault with
  | some (cause, n) => (some cause, put (data.take n))
  | Option.none => (Option.none, put data)

/-- The deferred `outputFile.Close()`; its result is discarded by the caller. -/
def Close (w : OS) (f : File) : OS :=
  w.emit (.close f.path)

/-! ## `plugin/plugin.go` -/

/-- The type `Args`.  The embedded `Pipeline` struct is declared in another file
of the package and is not read by any function here; it is a parameter. -/
structure Args (Pipeline : Type) where
  pipeline : Pipeline
  /-- The field `Level`: the plugin log level. -/
  Level : Str
  /-- The field `EnvName`: a comma-separated list of variable names. -/
  EnvName : Str
  /-- The field `Secret`: whether to write to the secret output file. -/
  Secret : Bool

/-- The function `validateArgs`. -/
def validateArgs {P : Type} (args : Args P) : Option GoError :=
  if args.EnvName = [] then
    some ⟨"env_name is required".toList, none⟩
  else
    none

/-- The function `writeOutputToFile`: appends `key=value\n` to the file named by
`DRONE_OUTPUT`. -/
def writeOutputToFile (w : OS) (key value : Str) : Option GoError × OS :=
  let (path, w) := Getenv w "DRONE_OUTPUT".toList
  match OpenFile w path with
  | (.error err, w) =>
    (some ⟨"failed to open output file: ".toList ++ err, some err⟩, w)
  | (.ok outputFile, w) =>
    match Fprintf w outputFile (key ++ "=".toList ++ value ++ "\n".toList) with
    | (some err, w) =>
      (some ⟨"failed to write to output file: ".toList ++ err, some err⟩, Close w outputFile)
    | (none, w) => (none, Close w outputFile)

/-- The function `writeSecretOutputToFile`: appends `key=value\n` to the file
named by `HARNESS_OUTPUT_SECRET_FILE`. -/
def writeSecretOutputToFile (w : OS) (key value : Str) : Option GoError × OS :=
  let (path, w) := Getenv w "HARNESS_OUTPUT_SECRET_FILE".toList
  match OpenFile w path with
  | (.error err, w) =>
    (some ⟨"failed to open secret output file: ".toList ++ err, some err⟩, w)
  | (.ok outputFile, w) =>
    match Fprintf w outputFile (key ++ "=".toList ++ value ++ "\n".toList) with
    | (some err, w) =>
      (some ⟨"failed to write to secret output file: ".toList ++ err, some err⟩,
        Close w outputFile)
    | (none, w) => (none, Close w outputFile)

/-- The body of the `for _, name := range envNames` loop of `Exec`, over the
pieces still to visit. -/
def execLoop (secret : Bool) : OS → List Str → Option GoError × OS
  | w, [] => (none, w)
  | w, name :: rest =>
    let name := TrimSpace name
    if name = [] then execLoop secret w rest
    else
      let ((value, «exists»), w) := LookupEnv w name
      let w := if !«exists» then
          Warnf w ("environment variable ".toList ++ name ++ " does not exist\n".toList)
        else w
      let w := Infof w ("inspecting environment variable: ".toList ++ name ++ "\n".toList)
      let (err, w) :=
        if secret then writeSecretOutputToFile w name value
        else writeOutputToFile w name value
      match err with
      | some e => (some e, w)
      | none =>
        let w := if «exists» then
            Infof w ("successfully exported ".toList ++ name ++ "\n".toList)
          else
            Infof w ("exported ".toList ++ name
              ++ " with empty value (variable does not exist)\n".toList)
        execLoop secret w rest

/-- The function `Exec` (its `ctx` argument is not used). -/
def Exec {P : Type} (w : OS) (args : Args P) : Option GoError × OS :=
  match validateArgs args with
  | some err => (some err, w)
  | none =>
    let envNames := Split args.EnvName ','
    execLoop args.Secret w envNames

/-! ## Vocabulary of the properties

The definitions below are used to state and prove the properties; `exportOne`,
`processNames` and `appendTo` are the pieces of `Exec` taken apart, and are
proved equal to the code further down. -/

/-- The cleaned name list of a raw `EnvName`, in the words of the specification:
split on `,`, trim each piece, discard the pieces that are empty after
trimming. -/
def cleanNames (raw : Str) : List Str :=
  ((Split raw ',').map TrimSpace).filter (fun s => s ≠ [])

/-- The environment variable that holds the path of the selected output file. -/
def pathVar (secret : Bool) : Str :=
  if secret then "HARNESS_OUTPUT_SECRET_FILE".toList else "DRONE_OUTPUT".toList

/-- The configured path of the selected output file (`""` when not set). -/
def targetPath (w : OS) (secret : Bool) : Str :=
  (w.env (pathVar secret)).getD []

/-- The file that `path` names, if it exists. -/
def OS.fileAt (w : OS) (path : Str) : Option Str :=
  w.files (w.resolve path)

/-- The content of the file that `path` names, a missing file reading as
empty. -/
def content (w : OS) (path : Str) : Str :=
  (w.files (w.resolve path)).getD []

/-- The record `name=value\n` for a name, the value taken from the environment
(`""` when the variable is not set). -/
def outputLine (env : Str → Option Str) (name : Str) : Str :=
  name ++ "=".toList ++ (env name).getD [] ++ "\n".toList

/-- The records of a list of names, one after the other. -/
def outputLines (env : Str → Option Str) (names : List Str) : Str :=
  (names.map (outputLine env)).flatten

/-- What the open-then-write attempt number `i` (from 0) on `path` meets, when
the attempts before it were made on the same world. -/
def nthAttempt (w : OS) (path : Str) (i : Nat) : Fault :=
  if path = [] then .openErr enoent
  else
    match w.denied path with
    | some cause => .openErr cause
    | none => w.faults.getD i Fault.none

/-- The file at `path` can be opened and written throughout: the path is not
empty, not denied, and no failure is in store. -/
def Writable (w : OS) (path : Str) : Prop :=
  path ≠ [] ∧ w.denied path = none ∧ ∀ f ∈ w.faults, f = Fault.none

instance (w : OS) (path : Str) : Decidable (Writable w path) := by
  unfold Writable; infer_instance

/-- How the error messages name the selected file. -/
def fileLabel (secret : Bool) : Str :=
  if secret then "secret output file".toList else "output file".toList

/-- The error `Exec` returns for a failed attempt. -/
def ioError (secret : Bool) : Fault → Option GoError
  | .none => none
  | .openErr cause =>
    some ⟨"failed to open ".toList ++ fileLabel secret ++ ": ".toList ++ cause, some cause⟩
  | .writeErr cause _ =>
    some ⟨"failed to write to ".toList ++ fileLabel secret ++ ": ".toList ++ cause, some cause⟩

/-- The characters of `data` that reach the file under a fault. -/
def landed (f : Fault) (data : Str) : Str :=
  match f with
  | .none => data
  | .openErr _ => []
  | .writeErr _ n => data.take n

/-- The actions of one name up to the call of the append function. -/
def lookupEvents (env : Str → Option Str) (name : Str) : List Event :=
  [Event.lookupEnv name]
    ++ (if (env name).isSome then []
        else [Event.warn ("environment variable ".toList ++ name ++ " does not exist\n".toList)])
    ++ [Event.info ("inspecting environment variable: ".toList ++ name ++ "\n".toList)]

/-- The actions of one append under a fault. -/
def appendEvents (secret : Bool) (path : Str) (f : Fault) (data : Str) : List Event :=
  [Event.getenv (pathVar secret), Event.openFile path]
    ++ (match f with
        | .openErr _ => []
        | _ => [Event.write path (landed f data), Event.close path])

/-- The closing diagnostic of a name whose append succeeded. -/
def doneEvent (env : Str → Option Str) (name : Str) : Event :=
  if (env name).isSome then
    Event.info ("successfully exported ".toList ++ name ++ "\n".toList)
  else
    Event.info ("exported ".toList ++ name
      ++ " with empty value (variable does not exist)\n".toList)

/-- All actions of a name whose append succeeded. -/
def okEvents (w : OS) (secret : Bool) (name : Str) : List Event :=
  lookupEvents w.env name
    ++ appendEvents secret (targetPath w secret) Fault.none (outputLine w.env name)
    ++ [doneEvent w.env name]

/-- All actions of a name whose append met the fault `f`. -/
def failEvents (w : OS) (secret : Bool) (name : Str) (f : Fault) : List Event :=
  lookupEvents w.env name
    ++ appendEvents secret (targetPath w secret) f (outputLine w.env name)

/-- The names looked up, in order, in a list of actions. -/
def lookedUp (tr : List Event) : List Str :=
  tr.filterMap (fun e => match e with | .lookupEnv k => some k | _ => none)

/-- Whether an action opens, writes or closes the file `fid`, by whatever path. -/
def Event.touches (resolve : Str → FileId) (fid : FileId) : Event → Bool
  | .openFile p => resolve p == fid
  | .write p _ => resolve p == fid
  | .close p => resolve p == fid
  | _ => false

/-- The append selected by the `Secret` flag, as in the loop of `Exec`. -/
def appendTo (secret : Bool) (w : OS) (key value : Str) : Option GoError × OS :=
  if secret then writeSecretOutputToFile w key value else writeOutputToFile w key value

/-- The world after one append attempt on the selected file that met `f`. -/
def afterAppend (secret : Bool) (w : OS) (f : Fault) (data : Str) : OS :=
  { w with
    files :=
      match f with
      | .openErr _ => w.files
      | _ => Function.update w.files (w.resolve (targetPath w secret))
              (some (content w (targetPath w secret) ++ landed f data))
    faults := w.faults.tail
    trace := w.trace ++ appendEvents secret (targetPath w secret) f data }

/-- The body of the loop of `Exec` for one name that is already trimmed and not
empty. -/
def exportOne (secret : Bool) (w : OS) (name : Str) : Option GoError × OS :=
  let ((value, found), w) := LookupEnv w name
  let w := if !found then
      Warnf w ("environment variable ".toList ++ name ++ " does not exist\n".toList)
    else w
  let w := Infof w ("inspecting environment variable: ".toList ++ name ++ "\n".toList)
  let (err, w) := appendTo secret w name value
  match err with
  | some e => (some e, w)
  | none =>
    (none,
      if found then
        Infof w ("successfully exported ".toList ++ name ++ "\n".toList)
      else
        Infof w ("exported ".toList ++ name
          ++ " with empty value (variable does not exist)\n".toList))

/-- The loop of `Exec` run over names that are already trimmed and not empty. -/
def processNames (secret : Bool) : OS → List Str → Option GoError × OS
  | w, [] => (none, w)
  | w, name :: rest =>
    match exportOne secret w name with
    | (some e, w) => (some e, w)
    | (none, w) => processNames secret w rest

/-- The world after one name whose append met `f`. -/
def afterName (secret : Bool) (w : OS) (f : Fault) (name : Str) : OS :=
  { w with
    files :=
      match f with
      | .openErr _ => w.files
      | _ => Function.update w.files (w.resolve (targetPath w secret))
              (some (content w (targetPath w secret) ++ landed f (outputLine w.env name)))
    faults := w.faults.tail
    trace := w.trace ++
      (match f with
       | .none => okEvents w secret name
       | _ => failEvents w secret name f) }

/-- The world after all of `names` were exported without a failure. -/
def afterAll (secret : Bool) (w : OS) (names : List Str) : OS :=
  { w with
    files :=
      if names = [] then w.files
      else Function.update w.files (w.resolve (targetPath w secret))
        (some (content w (targetPath w secret) ++ outputLines w.env names))
    faults := w.faults.drop names.length
    trace := w.trace ++ (names.map (okEvents w secret)).flatten }

/-- The world after the names `pre` were exported and the append of `n` met the
fault `f`. -/
def afterFailure (secret : Bool) (w : OS) (pre : List Str) (n : Str) (f : Fault) : OS :=
  { w with
    files :=
      match f with
      | .openErr _ => (afterAll secret w pre).files
      | _ => Function.update w.files (w.resolve (targetPath w secret))
              (some (content w (targetPath w secret) ++ outputLines w.env pre
                ++ landed f (outputLine w.env n)))
    faults := w.faults.drop (pre.length + 1)
    trace := w.trace ++ (pre.map (okEvents w secret)).flatten ++ failEvents w secret n f }

/-- Whether the first character is white space. -/
def startsWithSpace : Str → Bool
  | [] => false
  | c :: _ => IsSpace c

/-- Whether the last character is white space. -/
def endsWithSpace (s : Str) : Bool :=
  startsWithSpace s.reverse

/-- A well-formed name: not empty, without a comma, without white space at
either end. -/
def GoodName (n : Str) : Prop :=
  n ≠ [] ∧ ',' ∉ n ∧ startsWithSpace n = false ∧ endsWithSpace n = false

instance (n : Str) : Decidable (GoodName n) := by
  unfold GoodName; infer_instance

/-- A string of white space only (possibly empty). -/
def Blank (s : Str) : Prop :=
  ∀ c ∈ s, IsSpace c = true

instance (s : Str) : Decidable (Blank s) := by
  unfold Blank; infer_instance

/-- Go `strings.Join(l, ",")`. -/
def commaJoin : List Str → Str
  | [] => []
  | [s] => s
  | s :: t :: rest => s ++ ',' :: commaJoin (t :: rest)

/-- The records written, in order, in a list of actions: path and characters. -/
def written (tr : List Event) : List (Str × Str) :=
  tr.filterMap (fun e => match e with | .write p d => some (p, d) | _ => none)

/-- The file `fid` is the same in `w2` as in `w`, and no action of `w2` that `w`
had not yet performed opens, writes or closes it, by whatever path. -/
def Untouched (w w2 : OS) (fid : FileId) : Prop :=
  w2.files fid = w.files fid ∧
    ∃ new, w2.trace = w.trace ++ new ∧ ∀ e ∈ new, Event.touches w.resolve fid e = false

/-- One comma-separated piece of a decorated name list: a piece of white space
only, or a name with white space around it. -/
inductive Piece where
  | blank (ws : Str)
  | name (p n q : Str)

/-- The text of a piece. -/
def Piece.render : Piece → Str
  | .blank ws => ws
  | .name p n q => p ++ n ++ q

/-- The paddings are white space and the name is well formed. -/
def Piece.WellFormed : Piece → Prop
  | .blank ws => Blank ws
  | .name p n q => Blank p ∧ GoodName n ∧ Blank q

/-- The names carried by a list of pieces, in order. -/
def namesOf : List Piece → List Str
  | [] => []
  | .blank _ :: rest => namesOf rest
  | .name _ n _ :: rest => n :: namesOf rest

/-- The raw string of a list of pieces. -/
def decorate (pieces : List Piece) : Str :=
  commaJoin (pieces.map Piece.render)

/-- An environment given by a list of `(name, value)` pairs. -/
def envOf (l : List (Str × Str)) : Str → Option Str :=
  fun k => l.lookup k

/-- A sample resolution of paths: `/out` and `/./out` name the file 1, `/secret`
names the file 2, every other path names the file 0. -/
def demoResolve (p : Str) : FileId :=
  if p = "/out".toList ∨ p = "/./out".toList then 1
  else if p = "/secret".toList then 2
  else 0

/-- A sample world: both output paths set, `/out` holding an earlier record,
no failure in store. -/
def demoWorld : OS :=
  { env := envOf
      [("DRONE_OUTPUT".toList, "/out".toList),
       ("HARNESS_OUTPUT_SECRET_FILE".toList, "/secret".toList),
       ("VAR_A".toList, "a".toList),
       ("VAR_B".toList, "b".toList),
       ("PAD".toList, " x ".toList)]
    resolve := demoResolve
    files := fun i => if i = 1 then some "OLD=1\n".toList else none
    denied := fun _ => none
    faults := []
    trace := [] }

/-- The sample world without any file. -/
def freshWorld : OS :=
  { demoWorld with files := fun _ => none }

/-- The sample world with the two output variables spelling one file in two
ways. -/
def dotAliasWorld : OS :=
  { demoWorld with
    env := envOf
      [("DRONE_OUTPUT".toList, "/out".toList),
       ("HARNESS_OUTPUT_SECRET_FILE".toList, "/./out".toList),
       ("VAR_A".toList, "a".toList)]
    files := fun _ => none }

/-- The sample world with both output variables naming the same file. -/
def aliasWorld : OS :=
  { demoWorld with
    env := envOf
      [("DRONE_OUTPUT".toList, "/out".toList),
       ("HARNESS_OUTPUT_SECRET_FILE".toList, "/out".toList),
       ("VAR_A".toList, "a".toList)]
    files := fun _ => none }

/-- The sample world where the second append runs out of space after six
characters. -/
def faultyWorld : OS :=
  { demoWorld with faults := [Fault.none, Fault.writeErr "no space left on device".toList 6] }

/-- The sample world with neither output path set. -/
def noPathWorld : OS :=
  { demoWorld with env := envOf [("VAR_A".toList, "a".toList)] }

/-- A request with the given raw name list and flag. -/
def demoArgs (raw : String) (secret : Bool) : Args Unit :=
  ⟨(), [], raw.toList, secret⟩

/-- The sample world with the general output path refused by the system. -/
def deniedWorld : OS :=
  { demoWorld with
    denied := fun p => if p = "/out".toList then some "open /out: permission denied".toList
      else none }

instance (x : Piece) : Decidable x.WellFormed := by
  cases x <;> (unfold Piece.WellFormed; infer_instance)

/-- A decorated form of the list `VAR_A, VAR_B`. -/
def demoPieces : List Piece :=
  [Piece.name " ".toList "VAR_A".toList " ".toList, Piece.blank [], Piece.blank " ".toList,
   Piece.name [] "VAR_B".toList "\t".toList]

/-! ## Auxiliary results -/

theorem nthAttempt_zero (w : OS) (path : Str) :
    nthAttempt w path 0 =
      if path = [] then .openErr enoent
      else match w.denied path with
        | some cause => .openErr cause
        | none => w.faults.headD Fault.none := by
  unfold nthAttempt
  cases w.faults <;> rfl

/-- Both append functions, in one equation: the error and the world after the
attempt are determined by what the attempt meets. -/
theorem appendTo_eq (secret : Bool) (w : OS) (key value : Str) :
    appendTo secret w key value =
      (ioError secret (nthAttempt w (targetPath w secret) 0),
        afterAppend secret w (nthAttempt w (targetPath w secret) 0)
          (key ++ "=".toList ++ value ++ "\n".toList)) := by
  rw [nthAttempt_zero]
  cases secret
  · simp only [appendTo, writeOutputToFile, Getenv, OpenFile, Fprintf, Close, OS.emit,
      targetPath, pathVar, afterAppend, content, appendEvents, landed, Bool.false_eq_true,
      if_false]
    by_cases hp : (w.env "DRONE_OUTPUT".toList).getD [] = []
    · simp only [hp, if_true]
      simp [ioError, fileLabel]
    · simp only [hp, if_false]
      cases hd : w.denied ((w.env "DRONE_OUTPUT".toList).getD []) with
      | some c => simp [ioError, fileLabel]
      | none =>
        cases hf : w.faults.headD Fault.none with
        | none => simp [ioError, Function.update_idem, Function.update_same]
        | openErr c => simp [ioError, fileLabel]
        | writeErr c j => simp [ioError, fileLabel, Function.update_idem, Function.update_same]
  · simp only [appendTo, writeSecretOutputToFile, Getenv, OpenFile, Fprintf, Close, OS.emit,
      targetPath, pathVar, afterAppend, content, appendEvents, landed,
      if_true]
    by_cases hp : (w.env "HARNESS_OUTPUT_SECRET_FILE".toList).getD [] = []
    · simp only [hp, if_true]
      simp [ioError, fileLabel]
    · simp only [hp, if_false]
      cases hd : w.denied ((w.env "HARNESS_OUTPUT_SECRET_FILE".toList).getD []) with
      | some c => simp [ioError, fileLabel]
      | none =>
        cases hf : w.faults.headD Fault.none with
        | none => simp [ioError, Function.update_idem, Function.update_same]
        | openErr c => simp [ioError, fileLabel]
        | writeErr c j => simp [ioError, fileLabel, Function.update_idem, Function.update_same]

/-- The loop of `Exec` over the raw pieces is the loop over the cleaned names. -/
theorem execLoop_eq_processNames (secret : Bool) (segs : List Str) (w : OS) :
    execLoop secret w segs
      = processNames secret w ((segs.map TrimSpace).filter (fun s => s ≠ [])) := by
  induction segs generalizing w with
  | nil => rfl
  | cons s rest ih =>
    by_cases h : TrimSpace s = []
    · simp only [execLoop, h, if_true, List.map_cons, ne_eq, not_true_eq_false,
        decide_False, Bool.false_eq_true, not_false_eq_true, List.filter_cons_of_neg]
      exact ih w
    · simp only [execLoop, h, if_false, List.map_cons, ne_eq, not_false_eq_true,
        decide_True, List.filter_cons_of_pos, processNames, exportOne, appendTo]
      split <;> simp_all

/-- With a non-empty raw `EnvName`, the function `Exec` is the loop over the
cleaned names. -/
theorem Exec_eq_processNames {P : Type} (w : OS) (args : Args P) (h : args.EnvName ≠ []) :
    Exec w args = processNames args.Secret w (cleanNames args.EnvName) := by
  simp [Exec, validateArgs, h, cleanNames, execLoop_eq_processNames]

theorem targetPath_emit (w : OS) (e : Event) (secret : Bool) :
    targetPath (w.emit e) secret = targetPath w secret := rfl

theorem nthAttempt_emit (w : OS) (e : Event) (p : Str) (i : Nat) :
    nthAttempt (w.emit e) p i = nthAttempt w p i := rfl

/-- One pass of the loop body, in one equation. -/
theorem exportOne_eq (secret : Bool) (w : OS) (name : Str) :
    exportOne secret w name =
      (ioError secret (nthAttempt w (targetPath w secret) 0),
        afterName secret w (nthAttempt w (targetPath w secret) 0) name) := by
  cases hx : w.env name <;>
  · simp only [exportOne, LookupEnv, Warnf, Infof, appendTo_eq, hx, Option.isSome_none,
      Option.isSome_some, Bool.not_false, Bool.not_true, if_true, if_false,
      Bool.false_eq_true, targetPath_emit, nthAttempt_emit]
    cases hf : nthAttempt w (targetPath w secret) 0 <;>
      simp [ioError, afterName, afterAppend, OS.emit, okEvents, failEvents, lookupEvents,
        doneEvent, hx, outputLine, targetPath, content, appendEvents, landed]

theorem nthAttempt_afterName (secret : Bool) (w : OS) (f : Fault) (name p : Str) (i : Nat) :
    nthAttempt (afterName secret w f name) p i = nthAttempt w p (i + 1) := by
  simp only [nthAttempt, afterName]
  cases w.faults <;> simp [List.getD]

theorem outputLines_cons (env : Str → Option Str) (n : Str) (rest : List Str) :
    outputLines env (n :: rest) = outputLine env n ++ outputLines env rest := by
  simp [outputLines]

theorem outputLines_append (env : Str → Option Str) (xs ys : List Str) :
    outputLines env (xs ++ ys) = outputLines env xs ++ outputLines env ys := by
  simp [outputLines]

theorem afterAll_afterName (secret : Bool) (w : OS) (n : Str) (rest : List Str) :
    afterAll secret (afterName secret w Fault.none n) rest = afterAll secret w (n :: rest) := by
  have hp : targetPath (afterName secret w Fault.none n) secret = targetPath w secret := rfl
  have hk : ∀ m, okEvents (afterName secret w Fault.none n) secret m = okEvents w secret m :=
    fun _ => rfl
  simp only [afterAll, hp, hk, outputLines_cons]
  simp only [afterName, content, landed, List.length_cons, List.map_cons, List.flatten_cons,
    List.append_assoc, Function.update_same, Option.getD_some, Function.update_idem,
    List.drop_succ_cons, reduceCtorEq, if_false]
  congr 1
  · by_cases hr : rest = []
    · subst hr; simp [outputLines]
    · simp [hr]
  · cases w.faults <;> simp

theorem processNames_cons_ok (secret : Bool) (n : Str) (rest : List Str) (w : OS)
    (h0 : nthAttempt w (targetPath w secret) 0 = Fault.none) :
    processNames secret w (n :: rest)
      = processNames secret (afterName secret w Fault.none n) rest := by
  simp only [processNames, exportOne_eq, h0, ioError]

/-- When no attempt fails, all names are exported. -/
theorem processNames_ok (secret : Bool) (names : List Str) (w : OS)
    (h : ∀ i < names.length, nthAttempt w (targetPath w secret) i = Fault.none) :
    processNames secret w names = (none, afterAll secret w names) := by
  induction names generalizing w with
  | nil => simp [processNames, afterAll]
  | cons n rest ih =>
    have h0 : nthAttempt w (targetPath w secret) 0 = Fault.none := h 0 (by simp)
    rw [processNames_cons_ok secret n rest w h0, ih, afterAll_afterName]
    intro i hi
    have hp : targetPath (afterName secret w Fault.none n) secret = targetPath w secret := rfl
    rw [hp, nthAttempt_afterName]
    exact h (i + 1) (by simpa using hi)

/-- When the attempt for `n` is the first to fail, the loop stops there. -/
theorem processNames_fail (secret : Bool) (pre : List Str) (n : Str) (post : List Str)
    (w : OS) (f : Fault)
    (hpre : ∀ i < pre.length, nthAttempt w (targetPath w secret) i = Fault.none)
    (hf : nthAttempt w (targetPath w secret) pre.length = f) (hne : f ≠ Fault.none) :
    processNames secret w (pre ++ n :: post)
      = (ioError secret f, afterFailure secret w pre n f) := by
  induction pre generalizing w with
  | nil =>
    simp only [List.length_nil] at hf
    simp only [List.nil_append, processNames, exportOne_eq, hf]
    cases f with
    | none => exact absurd rfl hne
    | openErr c => simp [ioError, afterName, afterFailure, afterAll]
    | writeErr c j => simp [ioError, afterName, afterFailure, outputLines]
  | cons m rest ih =>
    have h0 : nthAttempt w (targetPath w secret) 0 = Fault.none := hpre 0 (by simp)
    have hp : targetPath (afterName secret w Fault.none m) secret = targetPath w secret := rfl
    rw [List.cons_append, processNames_cons_ok secret m _ w h0, ih]
    · congr 1
      have hk : ∀ k, okEvents (afterName secret w Fault.none m) secret k = okEvents w secret k :=
        fun _ => rfl
      have hfe : failEvents (afterName secret w Fault.none m) secret n f
          = failEvents w secret n f := rfl
      have hall := afterAll_afterName secret w m rest
      simp only [afterFailure, hp, hk, hfe, hall, outputLines_cons]
      simp only [afterName, content, landed, List.length_cons, List.map_cons, List.flatten_cons,
        List.append_assoc, Function.update_same, Option.getD_some, Function.update_idem,
        List.drop_succ_cons]
      congr 1
      cases w.faults <;> simp
    · intro i hi
      rw [hp, nthAttempt_afterName]
      exact hpre (i + 1) (by simpa using hi)
    · rw [hp, nthAttempt_afterName]
      simpa using hf

theorem Split_ne_nil (s : Str) (sep : Char) : Split s sep ≠ [] := by
  cases s with
  | nil => simp [Split]
  | cons c cs => unfold Split; split <;> simp

theorem Split_cons_headD_tail (s : Str) (sep : Char) :
    (Split s sep).headD [] :: (Split s sep).tail = Split s sep := by
  have h := Split_ne_nil s sep
  cases hs : Split s sep with
  | nil => exact absurd hs h
  | cons a l => rfl

theorem Split_no_sep (s : Str) (sep : Char) : ∀ t ∈ Split s sep, sep ∉ t := by
  induction s with
  | nil => simp [Split]
  | cons c cs ih =>
    intro t ht
    unfold Split at ht
    have hh := Split_cons_headD_tail cs sep
    by_cases hc : c = sep
    · simp only [hc, if_true, List.mem_cons] at ht
      rcases ht with rfl | ht
      · simp
      · exact ih t ht
    · simp only [hc, if_false, List.mem_cons] at ht
      rcases ht with rfl | ht
      · have : sep ∉ (Split cs sep).headD [] := ih _ (by rw [← hh]; simp)
        simp only [List.mem_cons, not_or]
        exact ⟨fun h => hc h.symm, this⟩
      · exact ih t (by rw [← hh]; simp [ht])

theorem Split_of_not_mem (s : Str) (sep : Char) (h : sep ∉ s) : Split s sep = [s] := by
  induction s with
  | nil => rfl
  | cons c cs ih =>
    simp only [List.mem_cons, not_or] at h
    have hc : ¬ c = sep := fun e => h.1 e.symm
    simp [Split, hc, ih h.2]

theorem Split_append_sep (s t : Str) (sep : Char) (h : sep ∉ s) :
    Split (s ++ sep :: t) sep = s :: Split t sep := by
  induction s with
  | nil => simp [Split]
  | cons c cs ih =>
    simp only [List.mem_cons, not_or] at h
    have hc : ¬ c = sep := fun e => h.1 e.symm
    simp [Split, hc, ih h.2]

/-- Splitting a comma-join of comma-free strings gives the strings back. -/
theorem Split_commaJoin (l : List Str) (hl : l ≠ []) (h : ∀ s ∈ l, ',' ∉ s) :
    Split (commaJoin l) ',' = l := by
  induction l with
  | nil => exact absurd rfl hl
  | cons s rest ih =>
    cases rest with
    | nil => exact Split_of_not_mem s ',' (h s (by simp))
    | cons t rest =>
      simp only [commaJoin]
      rw [Split_append_sep _ _ _ (h s (by simp)), ih (by simp)]
      intro u hu
      exact h u (by simp [hu])

theorem IsSpace_comma : IsSpace ',' = false := by decide

theorem Blank.no_comma {s : Str} (h : Blank s) : ',' ∉ s := by
  intro hc
  have := h _ hc
  rw [IsSpace_comma] at this
  exact absurd this (by simp)

theorem startsWithSpace_dropWhile (s : Str) : startsWithSpace (s.dropWhile IsSpace) = false := by
  induction s with
  | nil => rfl
  | cons c cs ih =>
    by_cases hc : IsSpace c = true
    · simpa [List.dropWhile_cons_of_pos hc] using ih
    · simp [List.dropWhile_cons_of_neg hc, startsWithSpace, hc]

theorem dropWhile_concat_neg (xs : Str) (c : Char) (hc : IsSpace c = false) :
    (xs ++ [c]).dropWhile IsSpace = xs.dropWhile IsSpace ++ [c] := by
  induction xs with
  | nil => simp [List.dropWhile, hc]
  | cons x xs ih =>
    by_cases hx : IsSpace x = true
    · simp [List.dropWhile_cons_of_pos hx, ih]
    · simp [List.dropWhile_cons_of_neg hx]

theorem TrimSpace_endsWithSpace (s : Str) : endsWithSpace (TrimSpace s) = false := by
  simp [endsWithSpace, TrimSpace, startsWithSpace_dropWhile]

theorem TrimSpace_startsWithSpace (s : Str) : startsWithSpace (TrimSpace s) = false := by
  unfold TrimSpace
  have hd := startsWithSpace_dropWhile s
  cases hs : s.dropWhile IsSpace with
  | nil => rfl
  | cons c cs =>
    rw [hs] at hd
    have hc : IsSpace c = false := hd
    rw [List.reverse_cons, dropWhile_concat_neg _ _ hc]
    simp [startsWithSpace, hc]

theorem TrimSpace_subset (s : Str) : ∀ c ∈ TrimSpace s, c ∈ s := by
  intro c hc
  unfold TrimSpace at hc
  rw [List.mem_reverse] at hc
  have h1 := List.dropWhile_subset IsSpace hc
  rw [List.mem_reverse] at h1
  exact List.dropWhile_subset IsSpace h1

theorem dropWhile_of_Blank {s : Str} (h : Blank s) : s.dropWhile IsSpace = [] := by
  induction s with
  | nil => rfl
  | cons c cs ih =>
    have hc : IsSpace c = true := h c (by simp)
    rw [List.dropWhile_cons_of_pos hc]
    exact ih (fun d hd => h d (by simp [hd]))

theorem Blank_of_dropWhile {s : Str} (h : s.dropWhile IsSpace = []) : Blank s := by
  induction s with
  | nil => intro c hc; simp at hc
  | cons c cs ih =>
    by_cases hc : IsSpace c = true
    · rw [List.dropWhile_cons_of_pos hc] at h
      intro d hd
      rcases List.mem_cons.mp hd with rfl | hd
      · exact hc
      · exact ih h d hd
    · rw [List.dropWhile_cons_of_neg hc] at h
      simp at h

/-- Exactly the strings of white space only trim to the empty string. -/
theorem TrimSpace_eq_nil_iff (s : Str) : TrimSpace s = [] ↔ Blank s := by
  constructor
  · intro h
    unfold TrimSpace at h
    rw [List.reverse_eq_nil_iff] at h
    have hb := Blank_of_dropWhile h
    have hd := startsWithSpace_dropWhile s
    apply Blank_of_dropWhile
    cases hs : s.dropWhile IsSpace with
    | nil => rfl
    | cons c cs =>
      rw [hs] at hd hb
      have := hb c (by simp)
      simp [startsWithSpace, this] at hd
  · intro h
    simp [TrimSpace, dropWhile_of_Blank h]

theorem dropWhile_Blank_append {p s : Str} (hp : Blank p) (hs : startsWithSpace s = false) :
    (p ++ s).dropWhile IsSpace = s := by
  induction p with
  | nil =>
    cases s with
    | nil => rfl
    | cons c cs =>
      have hc : ¬ IsSpace c = true := by simpa [startsWithSpace] using hs
      simp [List.dropWhile_cons_of_neg hc]
  | cons c cs ih =>
    have hc : IsSpace c = true := hp c (by simp)
    rw [List.cons_append, List.dropWhile_cons_of_pos hc]
    exact ih (fun d hd => hp d (by simp [hd]))

/-- Trimming removes white-space paddings around a name without white space at
either end. -/
theorem TrimSpace_padded (p n q : Str) (hp : Blank p) (hq : Blank q) (hn : n ≠ [])
    (hs : startsWithSpace n = false) (he : endsWithSpace n = false) :
    TrimSpace (p ++ n ++ q) = n := by
  unfold TrimSpace
  have h1 : startsWithSpace (n ++ q) = false := by
    cases n with
    | nil => exact absurd rfl hn
    | cons c cs => simpa [startsWithSpace] using hs
  rw [List.append_assoc, dropWhile_Blank_append hp h1, List.reverse_append]
  rw [dropWhile_Blank_append (fun c hc => hq c (List.mem_reverse.mp hc)) he, List.reverse_reverse]

/-- Every cleaned name is well formed. -/
theorem cleanNames_good (raw : Str) : ∀ n ∈ cleanNames raw, GoodName n := by
  intro n hn
  simp only [cleanNames, List.mem_filter, List.mem_map, decide_eq_true_eq] at hn
  obtain ⟨⟨s, hs, rfl⟩, hne⟩ := hn
  refine ⟨hne, ?_, TrimSpace_startsWithSpace s, TrimSpace_endsWithSpace s⟩
  intro hc
  exact Split_no_sep raw ',' s hs (TrimSpace_subset s _ hc)

theorem count_clean (l : List Str) (n : Str) (hn : n ≠ []) :
    ((l.map TrimSpace).filter (fun s => s ≠ [])).count n
      = l.countP (fun s => TrimSpace s == n) := by
  induction l with
  | nil => rfl
  | cons s rest ih =>
    rw [List.map_cons, List.countP_cons]
    by_cases h : TrimSpace s = []
    · have h2 : (TrimSpace s == n) = false := by
        rw [h]; simpa using fun e => hn e
      rw [List.filter_cons_of_neg (by simp [h]), ih, h2]
      simp
    · rw [List.filter_cons_of_pos (by simp [h]), List.count_cons, ih]

theorem nthAttempt_of_Writable {w : OS} {path : Str} (h : Writable w path) (i : Nat) :
    nthAttempt w path i = Fault.none := by
  obtain ⟨h1, h2, h3⟩ := h
  simp only [nthAttempt, h1, if_false, h2]
  rw [List.getD_eq_getElem?_getD]
  cases hg : w.faults[i]? with
  | none => rfl
  | some f => exact h3 f (List.getElem?_mem hg)

theorem lookedUp_okEvents (w : OS) (secret : Bool) (names : List Str) :
    lookedUp ((names.map (okEvents w secret)).flatten) = names := by
  induction names with
  | nil => rfl
  | cons n rest ih =>
    simp only [lookedUp] at ih
    cases hx : w.env n <;>
      simp [lookedUp, okEvents, lookupEvents, appendEvents, doneEvent, hx,
        List.filterMap_append, List.filterMap_cons, ih]

theorem written_okEvents (w : OS) (secret : Bool) (names : List Str) :
    written ((names.map (okEvents w secret)).flatten)
      = names.map (fun n => (targetPath w secret, outputLine w.env n)) := by
  induction names with
  | nil => rfl
  | cons n rest ih =>
    simp only [written] at ih
    cases hx : w.env n <;>
      simp [written, okEvents, lookupEvents, appendEvents, doneEvent, hx, landed,
        List.filterMap_append, List.filterMap_cons, ih]

theorem content_afterAll (secret : Bool) (w : OS) (names : List Str) :
    content (afterAll secret w names) (targetPath w secret)
      = content w (targetPath w secret) ++ outputLines w.env names := by
  by_cases h : names = []
  · subst h; simp [afterAll, content, outputLines]
  · simp [afterAll, content, h]

theorem untouched_refl (w : OS) (q : FileId) : Untouched w w q :=
  ⟨rfl, [], by simp, by simp⟩

theorem untouched_afterName (secret : Bool) (w : OS) (f : Fault) (n : Str) (q : FileId)
    (hq : q ≠ w.resolve (targetPath w secret)) : Untouched w (afterName secret w f n) q := by
  have hq2 : ¬ w.resolve (targetPath w secret) = q := fun e => hq e.symm
  refine ⟨?_, _, rfl, ?_⟩
  · cases f <;> simp [afterName, Function.update_noteq hq]
  · intro e he
    cases hx : w.env n <;> cases f <;>
      simp [okEvents, failEvents, lookupEvents, appendEvents, doneEvent, hx] at he <;>
      rcases he with rfl | rfl | rfl | rfl | rfl | rfl | rfl | rfl <;>
      simp [Event.touches, hq2]

theorem untouched_trans {w1 w2 w3 : OS} {q : FileId} (h12 : Untouched w1 w2 q)
    (hr : w2.resolve = w1.resolve) (h23 : Untouched w2 w3 q) : Untouched w1 w3 q := by
  obtain ⟨hf1, n1, ht1, hn1⟩ := h12
  obtain ⟨hf2, n2, ht2, hn2⟩ := h23
  refine ⟨hf2.trans hf1, n1 ++ n2, by rw [ht2, ht1, List.append_assoc], ?_⟩
  intro e he
  rcases List.mem_append.mp he with h | h
  · exact hn1 e h
  · rw [← hr]; exact hn2 e h

theorem processNames_untouched (secret : Bool) (names : List Str) (w : OS) (q : FileId)
    (hq : q ≠ w.resolve (targetPath w secret)) :
    Untouched w (processNames secret w names).2 q := by
  induction names generalizing w with
  | nil => exact untouched_refl w q
  | cons n rest ih =>
    have h1 := untouched_afterName secret w (nthAttempt w (targetPath w secret) 0) n q hq
    simp only [processNames, exportOne_eq]
    cases hf : nthAttempt w (targetPath w secret) 0 with
    | none =>
      rw [hf] at h1
      simp only [ioError]
      exact untouched_trans h1 rfl (ih _ hq)
    | openErr c => rw [hf] at h1; simpa [ioError] using h1
    | writeErr c j => rw [hf] at h1; simpa [ioError] using h1

/-- No run of `Exec` touches a file other than the selected one. -/
theorem Exec_untouched {P : Type} (w : OS) (args : Args P) (q : FileId)
    (hq : q ≠ w.resolve (targetPath w args.Secret)) : Untouched w (Exec w args).2 q := by
  by_cases h : args.EnvName = []
  · simp only [Exec, validateArgs, h, if_true]
    exact untouched_refl w q
  · rw [Exec_eq_processNames w args h]
    exact processNames_untouched _ _ w q hq

theorem cleanNames_nil : cleanNames [] = [] := by decide

/-- Cleaning a decorated list gives the names it carries. -/
theorem cleanNames_decorate (pieces : List Piece) (hwf : ∀ x ∈ pieces, x.WellFormed) :
    cleanNames (decorate pieces) = namesOf pieces := by
  by_cases hp : pieces = []
  · subst hp; decide
  · have hsplit : Split (decorate pieces) ',' = pieces.map Piece.render := by
      apply Split_commaJoin
      · simpa using hp
      · intro s hs
        obtain ⟨x, hx, rfl⟩ := List.mem_map.mp hs
        have hx2 := hwf x hx
        cases x with
        | blank ws => exact Blank.no_comma hx2
        | name p n q =>
          obtain ⟨h1, h2, h3⟩ := hx2
          simp only [Piece.render, List.mem_append, not_or]
          exact ⟨⟨Blank.no_comma h1, h2.2.1⟩, Blank.no_comma h3⟩
    simp only [cleanNames, hsplit]
    clear hsplit hp
    induction pieces with
    | nil => rfl
    | cons x rest ih =>
      have hx := hwf x (by simp)
      have ih2 := ih (fun y hy => hwf y (by simp [hy]))
      cases x with
      | blank ws =>
        have : TrimSpace ws = [] := (TrimSpace_eq_nil_iff ws).mpr hx
        simp only [List.map_cons, Piece.render, this, namesOf]
        rw [List.filter_cons_of_neg (by simp)]
        exact ih2
      | name p n q =>
        obtain ⟨h1, h2, h3⟩ := hx
        have : TrimSpace (p ++ n ++ q) = n := TrimSpace_padded p n q h1 h3 h2.1 h2.2.2.1 h2.2.2.2
        simp only [List.map_cons, Piece.render, this, namesOf]
        rw [List.filter_cons_of_pos (by simpa using h2.1)]
        rw [ih2]

theorem namesOf_map_name (l : List Str) :
    namesOf (l.map (fun n => Piece.name [] n [])) = l := by
  induction l with
  | nil => rfl
  | cons n rest ih => simp [namesOf, ih]

theorem decorate_map_name (l : List Str) :
    decorate (l.map (fun n => Piece.name [] n [])) = commaJoin l := by
  simp [decorate, Function.comp_def, Piece.render]

theorem cleanNames_commaJoin (l : List Str) (h : ∀ n ∈ l, GoodName n) :
    cleanNames (commaJoin l) = l := by
  have := cleanNames_decorate (l.map (fun n => Piece.name [] n [])) (by
    intro x hx
    obtain ⟨n, hn, rfl⟩ := List.mem_map.mp hx
    exact ⟨by intro c hc; simp at hc, h n hn, by intro c hc; simp at hc⟩)
  rwa [decorate_map_name, namesOf_map_name] at this

theorem Exec_world_of_cleanNames {P : Type} (w : OS) (a b : Args P)
    (hs : a.Secret = b.Secret) (hn : cleanNames a.EnvName = cleanNames b.EnvName) :
    (Exec w a).2 = (Exec w b).2 := by
  have key : ∀ c : Args P, (Exec w c).2 = (processNames c.Secret w (cleanNames c.EnvName)).2 := by
    intro c
    by_cases h : c.EnvName = []
    · simp [Exec, validateArgs, h, cleanNames_nil, processNames]
    · rw [Exec_eq_processNames w c h]
  rw [key a, key b, hs, hn]

/-- On a writable target with a non-empty raw `EnvName`, the function `Exec`
succeeds and exports all cleaned names. -/
theorem Exec_ok {P : Type} (w : OS) (args : Args P) (hraw : args.EnvName ≠ [])
    (hw : Writable w (targetPath w args.Secret)) :
    Exec w args = (none, afterAll args.Secret w (cleanNames args.EnvName)) := by
  rw [Exec_eq_processNames w args hraw]
  exact processNames_ok _ _ w (fun i _ => nthAttempt_of_Writable hw i)

theorem cleanNames_ne_nil_raw {raw : Str} (h : cleanNames raw ≠ []) : raw ≠ [] := by
  intro e; subst e; exact h cleanNames_nil

theorem outputLine_update_unset (env : Str → Option Str) (n : Str) (h : env n = none) (m : Str) :
    outputLine (Function.update env n (some [])) m = outputLine env m := by
  by_cases hm : m = n
  · subst hm; simp [outputLine, h]
  · simp [outputLine, Function.update_noteq hm]

theorem outputLines_update_unset (env : Str → Option Str) (n : Str) (h : env n = none)
    (names : List Str) :
    outputLines (Function.update env n (some [])) names = outputLines env names := by
  unfold outputLines
  congr 1
  exact List.map_congr_left (fun m _ => outputLine_update_unset env n h m)

theorem targetPath_update_unset (w : OS) (secret : Bool) (n : Str) (h : w.env n = none)
    (hp : targetPath w secret ≠ []) :
    targetPath { w with env := Function.update w.env n (some []) } secret
      = targetPath w secret := by
  unfold targetPath at hp ⊢
  have hne : pathVar secret ≠ n := by
    intro e
    rw [e, h] at hp
    exact hp rfl
  simp [Function.update_noteq hne]

theorem cleanNames_of_blank (raw : Str) (h : ∀ s ∈ Split raw ',', Blank s) :
    cleanNames raw = [] := by
  unfold cleanNames
  rw [List.filter_eq_nil_iff]
  intro t ht
  obtain ⟨s, hs, rfl⟩ := List.mem_map.mp ht
  simp [(TrimSpace_eq_nil_iff s).mpr (h s hs)]

theorem lookedUp_append (a b : List Event) : lookedUp (a ++ b) = lookedUp a ++ lookedUp b := by
  simp [lookedUp, List.filterMap_append]

theorem lookedUp_okEvents_one (w : OS) (secret : Bool) (n : Str) :
    lookedUp (okEvents w secret n) = [n] := by
  simpa using lookedUp_okEvents w secret [n]

theorem lookedUp_failEvents (w : OS) (secret : Bool) (n : Str) (f : Fault) :
    lookedUp (failEvents w secret n f) = [n] := by
  cases hx : w.env n <;> cases f <;>
    simp [lookedUp, failEvents, lookupEvents, appendEvents, hx]

/-- In every world the names looked up by the loop are an initial segment of
the list of names. -/
theorem processNames_lookedUp (secret : Bool) (names : List Str) (w : OS) :
    ∃ new rest, (processNames secret w names).2.trace = w.trace ++ new ∧
      names = lookedUp new ++ rest := by
  induction names generalizing w with
  | nil => exact ⟨[], [], by simp [processNames], rfl⟩
  | cons n tl ih =>
    simp only [processNames, exportOne_eq]
    cases hf : nthAttempt w (targetPath w secret) 0 with
    | none =>
      obtain ⟨new, rest, h1, h2⟩ := ih (afterName secret w Fault.none n)
      refine ⟨okEvents w secret n ++ new, rest, ?_, ?_⟩
      · simp only [ioError]
        rw [h1]
        simp [afterName]
      · rw [lookedUp_append, lookedUp_okEvents_one, h2]
        simp
    | openErr c =>
      refine ⟨failEvents w secret n (Fault.openErr c), tl, ?_, ?_⟩
      · simp [ioError, afterName]
      · rw [lookedUp_failEvents]; rfl
    | writeErr c j =>
      refine ⟨failEvents w secret n (Fault.writeErr c j), tl, ?_, ?_⟩
      · simp [ioError, afterName]
      · rw [lookedUp_failEvents]; rfl

/-- In every world the names `Exec` looks up are an initial segment of the
cleaned names. -/
theorem Exec_lookedUp_initial {P : Type} (w : OS) (a : Args P) :
    ∃ rest, cleanNames a.EnvName
      = lookedUp ((Exec w a).2.trace.drop w.trace.length) ++ rest := by
  by_cases h : a.EnvName = []
  · refine ⟨[], ?_⟩
    simp [Exec, validateArgs, h, cleanNames_nil, lookedUp]
  · rw [Exec_eq_processNames w a h]
    obtain ⟨new, rest, h1, h2⟩ := processNames_lookedUp a.Secret (cleanNames a.EnvName) w
    refine ⟨rest, ?_⟩
    rw [h1, List.drop_left]
    exact h2

/-- On a writable target `Exec` looks up exactly the cleaned names, writes one
record for each, in order, and succeeds unless the raw `EnvName` is empty. -/
theorem Exec_writable_run {P : Type} (w : OS) (a : Args P)
    (hw : Writable w (targetPath w a.Secret)) :
    lookedUp ((Exec w a).2.trace.drop w.trace.length) = cleanNames a.EnvName ∧
    written ((Exec w a).2.trace.drop w.trace.length)
      = (cleanNames a.EnvName).map (fun n => (targetPath w a.Secret, outputLine w.env n)) ∧
    content (Exec w a).2 (targetPath w a.Secret)
      = content w (targetPath w a.Secret) ++ outputLines w.env (cleanNames a.EnvName) ∧
    (a.EnvName ≠ [] → (Exec w a).1 = none) := by
  by_cases h : a.EnvName = []
  · simp [Exec, validateArgs, h, cleanNames_nil, lookedUp, written, outputLines]
  · rw [Exec_ok w a h hw]
    have htr : (afterAll a.Secret w (cleanNames a.EnvName)).trace.drop w.trace.length
        = ((cleanNames a.EnvName).map (okEvents w a.Secret)).flatten := by
      simp [afterAll]
    refine ⟨?_, ?_, content_afterAll _ _ _, fun _ => rfl⟩
    · simp only [htr]; exact lookedUp_okEvents _ _ _
    · simp only [htr]; exact written_okEvents _ _ _

/-- The function `Split` agrees with the library function `List.splitOn`. -/
theorem Split_eq_splitOn (s : Str) (sep : Char) : Split s sep = s.splitOn sep := by
  induction s with
  | nil => rfl
  | cons c cs ih =>
    have h1 : (c :: cs).splitOn sep
        = if (c == sep) = true then [] :: cs.splitOn sep
          else (cs.splitOn sep).modifyHead (List.cons c) := List.splitOnP_cons _ _ _
    rw [h1, ← ih]
    by_cases hc : c = sep
    · simp [Split, hc]
    · cases hs : Split cs sep with
      | nil => exact absurd hs (Split_ne_nil cs sep)
      | cons a l => simp [Split, hc, hs, List.modifyHead]

/-! ## The cases of `plugin_test.go` -/

/-- The case `single existing env var` of `TestExec`. -/
theorem TestExec_single_existing :
    (Exec freshWorld (demoArgs "VAR_A" false)).1 = none ∧
    (Exec freshWorld (demoArgs "VAR_A" false)).2.fileAt "/out".toList
      = some "VAR_A=a\n".toList := by
  decide

/-- The case `multiple existing env vars` of `TestExec`. -/
theorem TestExec_multiple_existing :
    (Exec freshWorld (demoArgs "VAR_A,VAR_B" false)).1 = none ∧
    (Exec freshWorld (demoArgs "VAR_A,VAR_B" false)).2.fileAt "/out".toList
      = some "VAR_A=a\nVAR_B=b\n".toList := by
  decide

/-- The case `non-existing env var` of `TestExec`. -/
theorem TestExec_non_existing :
    (Exec freshWorld (demoArgs "NON_EXISTING_VAR" false)).1 = none ∧
    (Exec freshWorld (demoArgs "NON_EXISTING_VAR" false)).2.fileAt "/out".toList
      = some "NON_EXISTING_VAR=\n".toList := by
  decide

/-- The case `secret output` of `TestExec`. -/
theorem TestExec_secret_output :
    (Exec freshWorld (demoArgs "VAR_A" true)).1 = none ∧
    (Exec freshWorld (demoArgs "VAR_A" true)).2.fileAt "/secret".toList
      = some "VAR_A=a\n".toList ∧
    (Exec freshWorld (demoArgs "VAR_A" true)).2.fileAt "/out".toList = none := by
  decide

/-- The three cases of `TestValidateArgs`. -/
theorem TestValidateArgs_cases :
    (validateArgs (demoArgs "" false)).isSome = true ∧
    validateArgs (demoArgs "MY_VAR" false) = none ∧
    validateArgs (demoArgs "VAR1,VAR2,VAR3" false) = none := by
  decide

/-- The test `TestExecWithSpacesInEnvNames`, with the variable `PAD`. -/
theorem TestExecWithSpacesInEnvNames_case :
    (Exec freshWorld (demoArgs "  PAD  " false)).1 = none ∧
    (Exec freshWorld (demoArgs "  PAD  " false)).2.fileAt "/out".toList
      = some "PAD= x \n".toList := by
  decide

/-- The test `TestExecEmptyEnvNameInList`. -/
theorem TestExecEmptyEnvNameInList_case :
    (Exec freshWorld (demoArgs "VAR_A,,VAR_B" false)).1 = none ∧
    (Exec freshWorld (demoArgs "VAR_A,,VAR_B" false)).2.fileAt "/out".toList
      = some "VAR_A=a\nVAR_B=b\n".toList := by
  decide

/-! ## Properties of `Exec` -/

/-- Claim C1: for a non-empty raw `EnvName` and a selected output file that can
be opened and written, `Exec` succeeds and the content of the selected file
afterwards is its content before followed by one record `name=value\n` per
cleaned name, in input order; the file exists afterwards as soon as one name
was processed. -/
theorem Exec_appends_one_line_per_name {P : Type} (w : OS) (args : Args P)
    (hraw : args.EnvName ≠ [])
    (hw : Writable w (targetPath w args.Secret)) :
    (Exec w args).1 = none ∧
    content (Exec w args).2 (targetPath w args.Secret)
      = content w (targetPath w args.Secret) ++ outputLines w.env (cleanNames args.EnvName) ∧
    (cleanNames args.EnvName ≠ [] →
      (Exec w args).2.fileAt (targetPath w args.Secret)
        = some (content w (targetPath w args.Secret)
            ++ outputLines w.env (cleanNames args.EnvName))) := by
  rw [Exec_ok w args hraw hw]
  refine ⟨rfl, content_afterAll _ _ _, ?_⟩
  intro h
  simp [afterAll, h, OS.fileAt]

theorem Exec_appends_one_line_per_name_witness :
    (demoArgs " VAR_A ,, NOPE,VAR_B" true).EnvName ≠ [] ∧
    Writable demoWorld "/secret".toList ∧
    (Exec demoWorld (demoArgs " VAR_A ,, NOPE,VAR_B" true)).1 = none ∧
    content (Exec demoWorld (demoArgs " VAR_A ,, NOPE,VAR_B" true)).2 "/secret".toList
      = "VAR_A=a\nNOPE=\nVAR_B=b\n".toList :=
  have h := Exec_appends_one_line_per_name demoWorld (demoArgs " VAR_A ,, NOPE,VAR_B" true)
    (by decide) (by decide)
  ⟨by decide, by decide, h.1, h.2.1.trans (by decide)⟩

/-- Claim C2: `validateArgs` returns an error exactly when `EnvName` is the
empty string, and with an empty `EnvName` the function `Exec` returns the error
`env_name is required` and leaves the world as it was: no lookup, no file
opened, created or modified, no diagnostic. -/
theorem validateArgs_iff_and_Exec_rejects_empty {P : Type} (w : OS) (args : Args P) :
    ((validateArgs args).isSome ↔ args.EnvName = []) ∧
    (args.EnvName = [] →
      Exec w args = (some ⟨"env_name is required".toList, none⟩, w)) := by
  constructor
  · by_cases h : args.EnvName = [] <;> simp [validateArgs, h]
  · intro h
    simp [Exec, validateArgs, h]

theorem validateArgs_iff_and_Exec_rejects_empty_witness :
    (demoArgs "" true).EnvName = [] ∧
    Exec demoWorld (demoArgs "" true)
      = (some ⟨"env_name is required".toList, none⟩, demoWorld) :=
  ⟨rfl, (validateArgs_iff_and_Exec_rejects_empty demoWorld (demoArgs "" true)).2 rfl⟩

/-- Claim C3, as stated, fails when both output variables name the same file,
be it by the same path or by two spellings of it: with `Secret` false the file
named by the secret-output variable, missing before, holds the exported record
afterwards. -/
theorem secret_file_modified_when_paths_coincide :
    (demoArgs "VAR_A" false).Secret = false ∧
    aliasWorld.fileAt (targetPath aliasWorld true) = none ∧
    (Exec aliasWorld (demoArgs "VAR_A" false)).2.fileAt (targetPath aliasWorld true)
      = some "VAR_A=a\n".toList ∧
    targetPath dotAliasWorld true ≠ targetPath dotAliasWorld false ∧
    dotAliasWorld.fileAt (targetPath dotAliasWorld true) = none ∧
    (Exec dotAliasWorld (demoArgs "VAR_A" false)).2.fileAt (targetPath dotAliasWorld true)
      = some "VAR_A=a\n".toList := by
  decide

/-- Claim C3, amended: when the two configured output paths name different
files (different once the system has resolved them, not merely different
strings), then whether `Exec` succeeds or fails, with `Secret` false the
secret-output file is left as it was and is not opened, written or closed by any
path, and with `Secret` true the same holds of the general-output file. -/
theorem unselected_file_untouched {P : Type} (w : OS) (args : Args P)
    (hdiff : w.resolve (targetPath w true) ≠ w.resolve (targetPath w false)) :
    (args.Secret = false →
      Untouched w (Exec w args).2 (w.resolve (targetPath w true))) ∧
    (args.Secret = true →
      Untouched w (Exec w args).2 (w.resolve (targetPath w false))) := by
  constructor
  · intro hs
    exact Exec_untouched w args _ (by rw [hs]; exact hdiff)
  · intro hs
    exact Exec_untouched w args _ (by rw [hs]; exact fun e => hdiff e.symm)

theorem unselected_file_untouched_witness :
    faultyWorld.resolve (targetPath faultyWorld true)
      ≠ faultyWorld.resolve (targetPath faultyWorld false) ∧
    (Exec faultyWorld (demoArgs "VAR_A,VAR_B" false)).1.isSome = true ∧
    Untouched faultyWorld (Exec faultyWorld (demoArgs "VAR_A,VAR_B" false)).2
      (faultyWorld.resolve (targetPath faultyWorld true)) :=
  ⟨by decide, by decide,
    (unselected_file_untouched faultyWorld (demoArgs "VAR_A,VAR_B" false) (by decide)).1 rfl⟩

/-- Claim C4: when the cleaned name list is `pre ++ n :: post`, the appends for
`pre` succeed and the append for `n` meets the fault `f`, then `Exec` returns
the error of that failure, the records of `pre` stay in the target file after
its earlier content (followed by whatever part of the record of `n` the failed
write had put), and the actions performed are those of `pre` and of the failed
`n` only: nothing is looked up, appended or logged for `post`. -/
theorem Exec_stops_at_first_failure {P : Type} (w : OS) (args : Args P)
    (pre : List Str) (n : Str) (post : List Str) (f : Fault)
    (hnames : cleanNames args.EnvName = pre ++ n :: post)
    (hpre : ∀ i < pre.length, nthAttempt w (targetPath w args.Secret) i = Fault.none)
    (hf : nthAttempt w (targetPath w args.Secret) pre.length = f)
    (hne : f ≠ Fault.none) :
    (Exec w args).1 = ioError args.Secret f ∧
    (ioError args.Secret f).isSome = true ∧
    content (Exec w args).2 (targetPath w args.Secret)
      = content w (targetPath w args.Secret) ++ outputLines w.env pre
          ++ landed f (outputLine w.env n) ∧
    (Exec w args).2.trace
      = w.trace ++ (pre.map (okEvents w args.Secret)).flatten
          ++ failEvents w args.Secret n f := by
  have hraw : args.EnvName ≠ [] := cleanNames_ne_nil_raw (by rw [hnames]; simp)
  rw [Exec_eq_processNames w args hraw, hnames,
    processNames_fail args.Secret pre n post w f hpre hf hne]
  refine ⟨rfl, ?_, ?_, rfl⟩
  · cases f with
    | none => exact absurd rfl hne
    | openErr c => rfl
    | writeErr c j => rfl
  · cases f with
    | none => exact absurd rfl hne
    | openErr c =>
      simp only [afterFailure, landed, List.append_nil]
      exact content_afterAll _ _ _
    | writeErr c j => simp [afterFailure, content]

theorem Exec_stops_at_first_failure_witness :
    cleanNames (demoArgs "VAR_A, VAR_B ,VAR_A" false).EnvName
      = ["VAR_A".toList] ++ "VAR_B".toList :: ["VAR_A".toList] ∧
    (Exec faultyWorld (demoArgs "VAR_A, VAR_B ,VAR_A" false)).1
      = some ⟨"failed to write to output file: no space left on device".toList,
          some "no space left on device".toList⟩ ∧
    content (Exec faultyWorld (demoArgs "VAR_A, VAR_B ,VAR_A" false)).2 "/out".toList
      = "OLD=1\nVAR_A=a\nVAR_B=".toList ∧
    lookedUp (Exec faultyWorld (demoArgs "VAR_A, VAR_B ,VAR_A" false)).2.trace
      = ["VAR_A".toList, "VAR_B".toList] :=
  have h := Exec_stops_at_first_failure faultyWorld (demoArgs "VAR_A, VAR_B ,VAR_A" false)
    ["VAR_A".toList] "VAR_B".toList ["VAR_A".toList]
    (Fault.writeErr "no space left on device".toList 6)
    (by decide) (by decide) (by decide) (by decide)
  ⟨by decide, h.1.trans (by decide), h.2.2.1.trans (by decide),
    (congrArg lookedUp h.2.2.2).trans (by decide)⟩

/-- Claim C5, as stated, fails for a raw `EnvName` without any usable name: with
the general output path not set and `EnvName` equal to `,`, the function `Exec`
returns no error. -/
theorem Exec_succeeds_without_names_on_unset_path :
    (demoArgs "," false).EnvName ≠ [] ∧
    targetPath noPathWorld false = [] ∧
    (Exec noPathWorld (demoArgs "," false)).1 = none := by
  decide

/-- Claim C5, amended: when the first open-then-write of the selected output
file fails, as it does for a path that is empty or not set (cause: no such file)
and for a path the system refuses to open, and the raw `EnvName` has at least
one piece that is not empty after trimming, `Exec` fails with an error that
wraps the cause and names the file: `output file` with `Secret` false,
`secret output file` with `Secret` true. -/
theorem Exec_fails_on_unwritable_path {P : Type} (w : OS) (args : Args P) (f : Fault)
    (hnames : cleanNames args.EnvName ≠ [])
    (hbad : nthAttempt w (targetPath w args.Secret) 0 = f)
    (hne : f ≠ Fault.none) :
    (targetPath w args.Secret = [] → f = Fault.openErr enoent) ∧
    (∀ c, targetPath w args.Secret ≠ [] → w.denied (targetPath w args.Secret) = some c →
      f = Fault.openErr c) ∧
    (∀ c, f = Fault.openErr c →
      (Exec w args).1
        = some ⟨"failed to open ".toList ++ fileLabel args.Secret ++ ": ".toList ++ c,
            some c⟩) ∧
    (∀ c j, f = Fault.writeErr c j →
      (Exec w args).1
        = some ⟨"failed to write to ".toList ++ fileLabel args.Secret ++ ": ".toList ++ c,
            some c⟩) := by
  have hraw : args.EnvName ≠ [] := cleanNames_ne_nil_raw hnames
  obtain ⟨n, post, hnp⟩ := List.exists_cons_of_ne_nil hnames
  have key := processNames_fail args.Secret [] n post w f
    (by intro i hi; simp at hi) hbad hne
  rw [List.nil_append] at key
  have hres : (Exec w args).1 = ioError args.Secret f := by
    rw [Exec_eq_processNames w args hraw, hnp, key]
  refine ⟨?_, ?_, ?_, ?_⟩
  · intro hp
    rw [← hbad, hp]
    rfl
  · intro c hp hd
    rw [← hbad]
    simp [nthAttempt, hp, hd]
  · intro c hc
    rw [hres, hc]
    rfl
  · intro c j hc
    rw [hres, hc]
    rfl

theorem Exec_fails_on_unwritable_path_witness :
    cleanNames (demoArgs " VAR_A " true).EnvName ≠ [] ∧
    targetPath noPathWorld true = [] ∧
    (Exec noPathWorld (demoArgs " VAR_A " true)).1
      = some ⟨"failed to open secret output file: open : no such file or directory".toList,
          some "open : no such file or directory".toList⟩ ∧
    deniedWorld.denied (targetPath deniedWorld false)
      = some "open /out: permission denied".toList ∧
    (Exec deniedWorld (demoArgs " VAR_A " false)).1
      = some ⟨"failed to open output file: open /out: permission denied".toList,
          some "open /out: permission denied".toList⟩ :=
  ⟨by decide, by decide,
    ((Exec_fails_on_unwritable_path noPathWorld (demoArgs " VAR_A " true)
      (Fault.openErr enoent) (by decide) (by decide) (by decide)).2.2.1 enoent rfl).trans
      (by decide),
    by decide,
    ((Exec_fails_on_unwritable_path deniedWorld (demoArgs " VAR_A " false)
      (Fault.openErr "open /out: permission denied".toList)
      (by decide) (by decide) (by decide)).2.2.1 _ rfl).trans (by decide)⟩

/-- Claim C6: with a non-empty raw `EnvName` and a writable target, the names
`Exec` looks up are, in order, the pieces of the split on `,`, trimmed, with the
empty ones discarded; each of them is not empty, has no comma and no white space
at either end; the list is a sublist of the trimmed pieces (order kept); a name
occurs in it as many times as there are pieces that trim to it (duplicates
kept); and one record is written per processed name, in the same order. -/
theorem processed_names_are_the_cleaned_pieces {P : Type} (w : OS) (args : Args P)
    (hraw : args.EnvName ≠ [])
    (hw : Writable w (targetPath w args.Secret)) :
    lookedUp ((Exec w args).2.trace.drop w.trace.length) = cleanNames args.EnvName ∧
    (∀ n ∈ cleanNames args.EnvName, GoodName n) ∧
    (cleanNames args.EnvName).Sublist ((Split args.EnvName ',').map TrimSpace) ∧
    (∀ n, n ≠ [] →
      (cleanNames args.EnvName).count n
        = (Split args.EnvName ',').countP (fun s => TrimSpace s == n)) ∧
    written ((Exec w args).2.trace.drop w.trace.length)
      = (cleanNames args.EnvName).map
          (fun n => (targetPath w args.Secret, outputLine w.env n)) ∧
    content (Exec w args).2 (targetPath w args.Secret)
      = content w (targetPath w args.Secret)
          ++ outputLines w.env (cleanNames args.EnvName) := by
  rw [Exec_ok w args hraw hw]
  have htr : (afterAll args.Secret w (cleanNames args.EnvName)).trace.drop w.trace.length
      = ((cleanNames args.EnvName).map (okEvents w args.Secret)).flatten := by
    simp [afterAll]
  refine ⟨?_, cleanNames_good _, List.filter_sublist _, ?_, ?_, content_afterAll _ _ _⟩
  · simp only [htr]; exact lookedUp_okEvents _ _ _
  · intro n hn; exact count_clean _ n hn
  · simp only [htr]; exact written_okEvents _ _ _

theorem processed_names_are_the_cleaned_pieces_witness :
    (demoArgs "VAR_A,,VAR_B" false).EnvName ≠ [] ∧
    Writable freshWorld "/out".toList ∧
    lookedUp (Exec freshWorld (demoArgs "VAR_A,,VAR_B" false)).2.trace
      = ["VAR_A".toList, "VAR_B".toList] ∧
    content (Exec freshWorld (demoArgs "VAR_A,,VAR_B" false)).2 "/out".toList
      = "VAR_A=a\nVAR_B=b\n".toList :=
  have h := processed_names_are_the_cleaned_pieces freshWorld (demoArgs "VAR_A,,VAR_B" false)
    (by decide) (by decide)
  ⟨by decide, by decide, h.1.trans (by decide), h.2.2.2.2.2.trans (by decide)⟩

/-- Claim C7: for a name `n` of the cleaned list that is not set in the
environment, with a writable target, `Exec` succeeds, the warning that `n` does
not exist is logged, the record appended for `n` is `n=\n`, and the run ends
with the same file content as the run in which `n` is set to the empty
string. -/
theorem unset_variable_exports_empty_value {P : Type} (w : OS) (args : Args P)
    (pre : List Str) (n : Str) (post : List Str)
    (hnames : cleanNames args.EnvName = pre ++ n :: post)
    (hunset : w.env n = none)
    (hw : Writable w (targetPath w args.Secret)) :
    (Exec w args).1 = none ∧
    Event.warn ("environment variable ".toList ++ n ++ " does not exist\n".toList)
      ∈ (Exec w args).2.trace.drop w.trace.length ∧
    content (Exec w args).2 (targetPath w args.Secret)
      = content w (targetPath w args.Secret) ++ outputLines w.env pre
          ++ (n ++ "=\n".toList) ++ outputLines w.env post ∧
    (Exec { w with env := Function.update w.env n (some []) } args).1 = none ∧
    content (Exec { w with env := Function.update w.env n (some []) } args).2
        (targetPath w args.Secret)
      = content (Exec w args).2 (targetPath w args.Secret) := by
  have hraw : args.EnvName ≠ [] := cleanNames_ne_nil_raw (by rw [hnames]; simp)
  have hp := targetPath_update_unset w args.Secret n hunset hw.1
  have hw2 : Writable { w with env := Function.update w.env n (some []) }
      (targetPath { w with env := Function.update w.env n (some []) } args.Secret) := by
    rw [hp]; exact hw
  rw [Exec_ok w args hraw hw, Exec_ok _ args hraw hw2]
  have c1 := content_afterAll args.Secret w (cleanNames args.EnvName)
  have c2 := content_afterAll args.Secret
    { w with env := Function.update w.env n (some []) } (cleanNames args.EnvName)
  rw [hp] at c2
  refine ⟨rfl, ?_, ?_, rfl, ?_⟩
  · simp [afterAll, hnames, okEvents, lookupEvents, hunset]
  · rw [c1, hnames, outputLines_append, outputLines_cons]
    simp [outputLine, hunset]
  · rw [c1, c2]
    simp only [outputLines_update_unset w.env n hunset, content]

theorem unset_variable_exports_empty_value_witness :
    cleanNames (demoArgs "VAR_A,NOPE" false).EnvName = ["VAR_A".toList] ++ "NOPE".toList :: [] ∧
    demoWorld.env "NOPE".toList = none ∧
    (Exec demoWorld (demoArgs "VAR_A,NOPE" false)).1 = none ∧
    content (Exec demoWorld (demoArgs "VAR_A,NOPE" false)).2 "/out".toList
      = "OLD=1\nVAR_A=a\nNOPE=\n".toList :=
  have h := unset_variable_exports_empty_value demoWorld (demoArgs "VAR_A,NOPE" false)
    ["VAR_A".toList] "NOPE".toList [] (by decide) (by decide) (by decide)
  ⟨by decide, by decide, h.1, h.2.2.1.trans (by decide)⟩

/-- Claim C8: for a well-formed name `n`, white-space paddings `p` and `q`, and
a value `v` of `n` in the environment, `Exec` with raw `EnvName` `p ++ n ++ q`
and a writable, initially empty target succeeds, looks up exactly `n`, and
leaves the file with exactly `n=v\n`, the value unchanged. -/
theorem padded_name_roundtrip {P : Type} (w : OS) (args : Args P) (p n q v : Str)
    (hn : GoodName n) (hp : Blank p) (hq : Blank q)
    (hraw : args.EnvName = p ++ n ++ q)
    (hv : w.env n = some v)
    (hw : Writable w (targetPath w args.Secret))
    (hempty : content w (targetPath w args.Secret) = []) :
    (Exec w args).1 = none ∧
    lookedUp ((Exec w args).2.trace.drop w.trace.length) = [n] ∧
    (Exec w args).2.fileAt (targetPath w args.Secret)
      = some (n ++ "=".toList ++ v ++ "\n".toList) := by
  have hclean : cleanNames args.EnvName = [n] := by
    have := cleanNames_decorate [Piece.name p n q] (by
      intro x hx
      rw [List.mem_singleton] at hx
      subst hx
      exact ⟨hp, hn, hq⟩)
    simpa [decorate, commaJoin, Piece.render, namesOf, ← hraw] using this
  have hne : args.EnvName ≠ [] := cleanNames_ne_nil_raw (by rw [hclean]; simp)
  rw [Exec_ok w args hne hw, hclean]
  refine ⟨rfl, ?_, ?_⟩
  · have := lookedUp_okEvents w args.Secret [n]
    simpa [afterAll] using this
  · simp [afterAll, OS.fileAt, hempty, outputLines, outputLine, hv]

theorem padded_name_roundtrip_witness :
    GoodName "PAD".toList ∧ Blank "  ".toList ∧ Blank " \t".toList ∧
    (Exec freshWorld (demoArgs "  PAD \t" false)).1 = none ∧
    (Exec freshWorld (demoArgs "  PAD \t" false)).2.fileAt "/out".toList
      = some "PAD= x \n".toList :=
  have h := padded_name_roundtrip freshWorld (demoArgs "  PAD \t" false)
    "  ".toList "PAD".toList " \t".toList " x ".toList
    (by decide) (by decide) (by decide) (by decide) (by decide) (by decide) (by decide)
  ⟨by decide, by decide, by decide, h.1, h.2.2.trans (by decide)⟩

/-- Claim C9: for a non-empty raw `EnvName` all of whose comma-separated pieces
are empty or white space only, `Exec` succeeds and leaves the world as it was,
whatever the flag and whatever the state of the output paths: no lookup, no
file opened, created or modified. -/
theorem blank_list_is_a_successful_no_op {P : Type} (w : OS) (args : Args P)
    (hraw : args.EnvName ≠ [])
    (hblank : ∀ s ∈ Split args.EnvName ',', Blank s) :
    Exec w args = (none, w) := by
  rw [Exec_eq_processNames w args hraw, cleanNames_of_blank _ hblank]
  rfl

theorem blank_list_is_a_successful_no_op_witness :
    (demoArgs ", ,\t," true).EnvName ≠ [] ∧
    (∀ s ∈ Split (demoArgs ", ,\t," true).EnvName ',', Blank s) ∧
    Exec noPathWorld (demoArgs ", ,\t," true) = (none, noPathWorld) :=
  ⟨by decide, by decide,
    blank_list_is_a_successful_no_op noPathWorld (demoArgs ", ,\t," true)
      (by decide) (by decide)⟩

/-- Claim C10: a raw string made of well-formed pieces (padded names and
white-space-only pieces, joined by commas) is cleaned to exactly the names `L`
it carries; cleaning the comma-join of a cleaned list returns that list; `Exec`
leaves the same world (same files, same actions) for the decorated string as for
the plain comma-join of `L`; and for either string the names `Exec` looks up are
an initial segment of `L` in every world and, on a writable target, exactly `L`,
with one record written per name of `L`, in order, after the earlier content. -/
theorem cleaning_ignores_padding_and_blank_pieces {P : Type} (pieces : List Piece)
    (hwf : ∀ x ∈ pieces, x.WellFormed) :
    cleanNames (decorate pieces) = namesOf pieces ∧
    cleanNames (commaJoin (namesOf pieces)) = namesOf pieces ∧
    (∀ raw : Str, cleanNames (commaJoin (cleanNames raw)) = cleanNames raw) ∧
    (∀ (w : OS) (a b : Args P), a.Secret = b.Secret →
      a.EnvName = decorate pieces → b.EnvName = commaJoin (namesOf pieces) →
      (Exec w a).2 = (Exec w b).2) ∧
    (∀ (w : OS) (a : Args P),
      a.EnvName = decorate pieces ∨ a.EnvName = commaJoin (namesOf pieces) →
      ∃ rest, namesOf pieces
        = lookedUp ((Exec w a).2.trace.drop w.trace.length) ++ rest) ∧
    (∀ (w : OS) (a : Args P),
      a.EnvName = decorate pieces ∨ a.EnvName = commaJoin (namesOf pieces) →
      Writable w (targetPath w a.Secret) →
      lookedUp ((Exec w a).2.trace.drop w.trace.length) = namesOf pieces ∧
      written ((Exec w a).2.trace.drop w.trace.length)
        = (namesOf pieces).map (fun n => (targetPath w a.Secret, outputLine w.env n)) ∧
      content (Exec w a).2 (targetPath w a.Secret)
        = content w (targetPath w a.Secret) ++ outputLines w.env (namesOf pieces) ∧
      (a.EnvName ≠ [] → (Exec w a).1 = none)) := by
  have h1 := cleanNames_decorate pieces hwf
  have h3 : ∀ raw : Str, cleanNames (commaJoin (cleanNames raw)) = cleanNames raw :=
    fun raw => cleanNames_commaJoin _ (cleanNames_good raw)
  have h2 : cleanNames (commaJoin (namesOf pieces)) = namesOf pieces := by
    rw [← h1]; exact h3 _
  have hc : ∀ a : Args P,
      a.EnvName = decorate pieces ∨ a.EnvName = commaJoin (namesOf pieces) →
      cleanNames a.EnvName = namesOf pieces := by
    intro a ha
    rcases ha with ha | ha
    · rw [ha, h1]
    · rw [ha, h2]
  refine ⟨h1, h2, h3, ?_, ?_, ?_⟩
  · intro w a b hs ha hb
    exact Exec_world_of_cleanNames w a b hs (by rw [ha, hb, h1, h2])
  · intro w a ha
    rw [← hc a ha]
    exact Exec_lookedUp_initial w a
  · intro w a ha hw
    rw [← hc a ha]
    exact Exec_writable_run w a hw

theorem cleaning_ignores_padding_and_blank_pieces_witness :
    (∀ x ∈ demoPieces, x.WellFormed) ∧
    decorate demoPieces = " VAR_A ,, ,VAR_B\t".toList ∧
    cleanNames " VAR_A ,, ,VAR_B\t".toList = ["VAR_A".toList, "VAR_B".toList] ∧
    (Exec faultyWorld (demoArgs " VAR_A ,, ,VAR_B\t" false)).2
      = (Exec faultyWorld (demoArgs "VAR_A,VAR_B" false)).2 ∧
    lookedUp (Exec demoWorld (demoArgs " VAR_A ,, ,VAR_B\t" false)).2.trace
      = ["VAR_A".toList, "VAR_B".toList] ∧
    content (Exec demoWorld (demoArgs " VAR_A ,, ,VAR_B\t" false)).2 "/out".toList
      = "OLD=1\nVAR_A=a\nVAR_B=b\n".toList :=
  have h := @cleaning_ignores_padding_and_blank_pieces Unit demoPieces (by decide)
  have hrun := h.2.2.2.2.2 demoWorld (demoArgs " VAR_A ,, ,VAR_B\t" false)
    (Or.inl (by decide)) (by decide)
  ⟨by decide, by decide, h.1, h.2.2.2.1 faultyWorld _ _ rfl (by decide) (by decide),
    hrun.1.trans (by decide), hrun.2.2.1.trans (by decide)⟩

end EnvInspector
